import Mathlib

/-!
Verification of the registry service of the `engine` repository: a shallow
embedding of the reference-name normalization helpers
(`src/unnamed/part_000`, `src/unnamed/part_001`), the reference
qualification helpers (`src/reference/utils.go`) and the registry service
(`src/registry/service.go`), together with theorems settling the spec's
claims about them.

Go strings are embedded as `List Char` (`Str`); Go byte-wise string
comparison and ASCII case mapping are modelled character-wise, which agrees
with Go on ASCII data.  Machine `int` fields are embedded as `Int`.
External collaborators (the generic reference grammar, the HTTP transport,
the V1 session) are passed in as parameters.
-/

/-- Go strings, embedded character-wise. -/
abbrev Str := List Char

/-- Shorthand turning a Lean string literal into the embedding type. -/
def str (s : String) : Str := s.data

/-- Go byte-wise `<` on strings, character-wise on the embedding. -/
def strLt : Str → Str → Bool
  | [], [] => false
  | [], _ :: _ => true
  | _ :: _, [] => false
  | a :: as, b :: bs => if a < b then true else if b < a then false else strLt as bs

/-- Go `strings.HasPrefix s p`. -/
def strStartsWith : Str → Str → Bool
  | _, [] => true
  | [], _ :: _ => false
  | c :: cs, p :: ps => c = p && strStartsWith cs ps

/-- Go `strings.Index s sub != -1` (substring containment). -/
def containsSub : Str → Str → Bool
  | [], sub => strStartsWith [] sub
  | s@(_ :: cs), sub => strStartsWith s sub || containsSub cs sub

/-- Go `strings.Replace s old "" 1`: delete the first occurrence of `old`. -/
def replaceFirst : Str → Str → Str
  | [], _ => []
  | s@(c :: cs), old =>
    if strStartsWith s old then s.drop old.length else c :: replaceFirst cs old

/-- Split a string at the first `'/'` (Go `strings.IndexRune name '/'`):
`none` when there is no slash, otherwise the parts before and after it. -/
def splitFirstSlash : Str → Option (Str × Str)
  | [] => none
  | c :: cs =>
    if c = '/' then some ([], cs)
    else
      match splitFirstSlash cs with
      | none => none
      | some p => some (c :: p.1, p.2)

/-- The prefix of a string up to (excluding) the first `':'`
(Go `remainder[:strings.IndexRune remainder ':']`, or the whole string). -/
def takeUntilColon : Str → Str
  | [] => []
  | c :: cs => if c = ':' then [] else c :: takeUntilColon cs

/-- ASCII lower-casing of one character, the ASCII fragment of Go
`strings.ToLower`. -/
def toLowerChar (c : Char) : Char :=
  if 'A' ≤ c ∧ c ≤ 'Z' then Char.ofNat (c.toNat + 32) else c

/-- Go `strings.ToLower`, restricted to ASCII case mapping. -/
def toLowerStr (s : Str) : Str := s.map toLowerChar

/-- An ASCII upper-case letter. -/
def isUpperChar (c : Char) : Bool := decide ('A' ≤ c ∧ c ≤ 'Z')

/-! ## Reference normalization — `src/unnamed/part_000`

The compiled-in list `registry.DefaultRegistries` is not part of this
repository's sources; it is passed in as the parameter `regs` below.
-/

/-- The domain/remainder split of `splitDockerDomain`
(`src/unnamed/part_000` lines 48-54) before the `library/` rewrite loop:
the part before the first `'/'` is the domain only when it contains `'.'`
or `':'` or equals `"localhost"`. -/
def splitDockerDomainBase (name : Str) : Str × Str :=
  match splitFirstSlash name with
  | none => ([], name)
  | some p =>
    if ¬ (p.1.contains '.' || p.1.contains ':') = true ∧ p.1 ≠ str "localhost"
    then ([], name)
    else p

/-- The `for _, r := range registry.DefaultRegistries` rewrite loop of
`splitDockerDomain` (`src/unnamed/part_000` lines 55-60): the first default
registry matching the domain (or an empty domain) with a single-segment
remainder triggers the `library/` prefix. -/
def libraryLoop (regs : List Str) (domain remainder : Str) : Str :=
  match regs with
  | [] => remainder
  | r :: rs =>
    if (domain = r ∨ domain = []) ∧ remainder.contains '/' = false
    then str "library/" ++ remainder
    else libraryLoop rs domain remainder

/-- `splitDockerDomain` of `src/unnamed/part_000` (lines 48-62). -/
def splitDockerDomain (regs : List Str) (name : Str) : Str × Str :=
  let p := splitDockerDomainBase name
  (p.1, libraryLoop regs p.1 p.2)

/-- The `for _, r := range registry.DefaultRegistries` body of
`trimDefaultRegistry` (`src/unnamed/part_000` lines 66-74). -/
def trimLoop (regs : List Str) (domain s : Str) : Str :=
  match regs with
  | [] => s
  | r :: rs =>
    if domain = r then
      if containsSub s (domain ++ str "/library") = true
      then replaceFirst s (r ++ str "/library/")
      else replaceFirst s (r ++ str "/")
    else trimLoop rs domain s

/-- `trimDefaultRegistry` of `src/unnamed/part_000` (lines 64-76). -/
def trimDefaultRegistry (regs : List Str) (s : Str) : Str :=
  trimLoop regs (splitDockerDomain regs s).1 s

/-- Modelled from the spec: `anchoredIdentifierRegexp` is referenced by
`ParseNormalizedNamed` but not defined under `src/`; per the spec it
matches exactly a bare 64-hex-character string. -/
def matchesAnchoredIdentifier (s : Str) : Bool :=
  s.length = 64 && s.all (fun c => ('0' ≤ c && c ≤ '9') || ('a' ≤ c && c ≤ 'f'))

/-- Outcome of the external generic reference grammar
(`reference.Parse` of the distribution library, an external collaborator):
a parse error, a syntactically valid but nameless reference, or a named
reference. -/
inductive GrammarOutcome where
  | parseErr (msg : Str)
  | anonymous
  | named
deriving DecidableEq

/-- `ParseNormalizedNamed` of `src/unnamed/part_000` (lines 16-46), with
the external reference grammar abstracted as the oracle `g`; on success the
name string handed to (and accepted by) the grammar is returned. -/
def ParseNormalizedNamed (regs : List Str) (g : Str → GrammarOutcome) (s : Str) :
    Except Str Str :=
  if matchesAnchoredIdentifier s = true then
    .error (str "invalid repository name, cannot specify 64-byte hexadecimal strings")
  else
    let p := splitDockerDomain regs s
    let remoteName := takeUntilColon p.2
    if toLowerStr remoteName ≠ remoteName then
      .error (str "invalid reference format: repository name must be lowercase")
    else
      let sn := if p.1 = [] then p.2 else p.1 ++ '/' :: p.2
      match g sn with
      | .parseErr m => .error m
      | .anonymous => .error (str "reference has no name")
      | .named => .ok sn

/-! ## Reference qualification — `src/reference/utils.go` -/

/-- A named reference of the distribution library: the name string plus at
most one of a tag or a digest (`distreference.Named` restricted to the data
the repository's code inspects). -/
structure NamedRef where
  name : Str
  tag : Option Str
  digest : Option Str
deriving DecidableEq

/-- `distreference.SplitHostname` (external collaborator): split the name
at its first `'/'`; a name without a slash has an empty hostname part. -/
def SplitHostname (name : Str) : Str × Str :=
  match splitFirstSlash name with
  | none => ([], name)
  | some p => p

/-- `isValidHostname` of `src/reference/utils.go` (lines 83-87). -/
def isValidHostname (hostname : Str) : Bool :=
  decide (hostname ≠ [] ∧ hostname.contains '/' = false ∧
    (hostname.contains '.' = true ∨ hostname.contains ':' = true ∨
      hostname = str "localhost"))

/-- `SplitReposName` of `src/reference/utils.go` (lines 69-81); the
external `distreference.WithName` is modelled as building a bare named
reference. -/
def SplitReposName (reposName : NamedRef) : Str × NamedRef :=
  let p := SplitHostname reposName.name
  if isValidHostname p.1 = false then ([], reposName)
  else (p.1, { name := p.2, tag := none, digest := none })

/-- `SubstituteReferenceName` of `src/reference/utils.go` (lines 12-31):
rebuild the reference around a new name, preserving a tag first, else a
digest, else nothing. -/
def SubstituteReferenceName (ref : NamedRef) (reposName : Str) : NamedRef :=
  if ref.tag.isSome then { name := reposName, tag := ref.tag, digest := none }
  else if ref.digest.isSome then { name := reposName, tag := none, digest := ref.digest }
  else { name := reposName, tag := none, digest := none }

/-- `QualifyUnqualifiedReference` of `src/reference/utils.go` (lines 47-59). -/
def QualifyUnqualifiedReference (ref : NamedRef) (indexName : Str) :
    Except Str NamedRef :=
  if isValidHostname indexName = false then .error (str "Invalid hostname")
  else
    let p := SplitReposName ref
    if p.1 = [] then .ok (SubstituteReferenceName ref (indexName ++ '/' :: p.2.name))
    else .ok ref

/-! ## Registry service — `src/registry/service.go` -/

/-- `registrytypes.SearchResultExt`, the extended search result record. -/
structure SearchResultExt where
  indexName : Str
  registryName : Str
  starCount : Int
  name : Str
  isOfficial : Bool
  isAutomated : Bool
  description : Str
deriving DecidableEq

/-- `getSearchResultsCmpFunc` of `src/registry/service.go` (lines 254-281):
the `less` comparator over search results, with or without the index name
in the key. -/
def getSearchResultsCmpFunc (withIndex : Bool) (fst snd : SearchResultExt) : Bool :=
  if withIndex = true ∧ fst.indexName ≠ snd.indexName then
    strLt fst.indexName snd.indexName
  else if withIndex = true ∧ fst.starCount ≠ snd.starCount then
    decide (snd.starCount < fst.starCount)
  else if fst.registryName ≠ snd.registryName then
    strLt fst.registryName snd.registryName
  else if withIndex = false ∧ fst.starCount ≠ snd.starCount then
    decide (snd.starCount < fst.starCount)
  else if fst.name ≠ snd.name then
    strLt fst.name snd.name
  else
    strLt fst.description snd.description

/-- The ranking order the spec prescribes when index identity is
significant: (indexName asc, starCount desc, registryName asc, name asc,
description asc), lexicographically. -/
def specLessWithIndex (fst snd : SearchResultExt) : Prop :=
  strLt fst.indexName snd.indexName = true ∨
    (fst.indexName = snd.indexName ∧
      (snd.starCount < fst.starCount ∨
        (fst.starCount = snd.starCount ∧
          (strLt fst.registryName snd.registryName = true ∨
            (fst.registryName = snd.registryName ∧
              (strLt fst.name snd.name = true ∨
                (fst.name = snd.name ∧
                  strLt fst.description snd.description = true)))))))

/-- The ranking order the spec prescribes when index identity is dropped:
(registryName asc, starCount desc, name asc, description asc),
lexicographically. -/
def specLessNoIndex (fst snd : SearchResultExt) : Prop :=
  strLt fst.registryName snd.registryName = true ∨
    (fst.registryName = snd.registryName ∧
      (snd.starCount < fst.starCount ∨
        (fst.starCount = snd.starCount ∧
          (strLt fst.name snd.name = true ∨
            (fst.name = snd.name ∧
              strLt fst.description snd.description = true)))))

/-- `splitReposSearchTerm` of `src/registry/service.go` (lines 184-202);
`isn` stands for the configured `IndexServerName()`, which is not under
`src/`. -/
def splitReposSearchTerm (fixMissingIndex : Bool) (isn : Str) (reposName : Str) :
    Str × Str :=
  match splitFirstSlash reposName with
  | none => (if fixMissingIndex then isn else [], reposName)
  | some p =>
    if p.1.contains '.' = false ∧ p.1.contains ':' = false ∧ p.1 ≠ str "localhost"
    then (if fixMissingIndex then isn else [], reposName)
    else p

/-- `isReposSearchTermFullyQualified` of `src/registry/service.go`
(lines 429-432); the `IndexServerName` argument is irrelevant because the
split is called with `fixMissingIndex = false`. -/
def isReposSearchTermFullyQualified (term : Str) : Bool :=
  decide ((splitReposSearchTerm false [] term).1 ≠ [])

/-- The priority-lookup loops of `removeSearchDuplicates`
(`src/registry/service.go` lines 407-416): the position of an index name
in the configured query-registry list, or the list's length when absent. -/
def registryPriority (qr : List Str) (idx : Str) : Nat :=
  match qr with
  | [] => 0
  | r :: rs => if idx = r then 0 else 1 + registryPriority rs idx

/-- The scan of `removeSearchDuplicates` (`src/registry/service.go`
lines 399-425): `prev` is the candidate at `res[prevIndex]`, compared with
each next entry; colliding entries keep the configuration-priority winner,
breaking ties by star count. -/
def dedupGo (qr : List Str) (prev : SearchResultExt) :
    List SearchResultExt → List SearchResultExt
  | [] => [prev]
  | curr :: rest =>
    if prev.registryName = curr.registryName ∧ prev.name = curr.name then
      let prioPrev := registryPriority qr prev.indexName
      let prioCurr := registryPriority qr curr.indexName
      if prioPrev > prioCurr ∨ (prioPrev = prioCurr ∧ prev.starCount < curr.starCount)
      then dedupGo qr curr rest
      else dedupGo qr prev rest
    else prev :: dedupGo qr curr rest

/-- `removeSearchDuplicates` of `src/registry/service.go` (lines 390-427). -/
def removeSearchDuplicates (qr : List Str) (data : List SearchResultExt) :
    List SearchResultExt :=
  match data with
  | [] => []
  | d :: ds => dedupGo qr d ds

/-- The post-processing tail of `Search` (`src/registry/service.go`
lines 245-248): sort with the comparator for `!noIndex`, then deduplicate
only when `noIndex` is set.  The `sort.Sort` call is abstracted as the
parameter `sortImpl`. -/
def searchPostProcess (sortImpl : List SearchResultExt → List SearchResultExt)
    (qr : List Str) (noIndex : Bool) (results : List SearchResultExt) :
    List SearchResultExt :=
  let sorted := sortImpl results
  if noIndex then removeSearchDuplicates qr sorted else sorted

/-- Outcome of a `Search` call at the control-flow level: success, or a
surfaced error. -/
inductive SearchOutcome where
  | ok
  | fail (e : Str)
deriving DecidableEq

/-- The repeated `err = <-resultChan` receive loop of `Search`
(`src/registry/service.go` lines 233-240): `err` ends as the last received
task error (or `none` when the last received task succeeded). -/
def lastReceived (received : List (Option Str)) : Option Str :=
  received.foldl (fun _ e => e) none

/-- The top-level control flow of `Search` (`src/registry/service.go`
lines 204-250): `qualErr` is the outcome of the single `searchTerm` call
in the fully-qualified branch, and `received` the per-task errors of the
fan-out branch in channel-receive order. -/
def searchControl (qr : List Str) (term : Str) (qualErr : Option Str)
    (received : List (Option Str)) : SearchOutcome :=
  if isReposSearchTermFullyQualified term = true then
    match qualErr with
    | some e => .fail e
    | none => .ok
  else if qr.length < 1 then
    .fail (str "No configured repository to search.")
  else
    let successfulSearch := received.any (fun e => e.isNone)
    if successfulSearch = false then
      match lastReceived received with
      | some e => .fail e
      | none => .ok
    else .ok

/-! ### Auth — `src/registry/service.go` lines 108-154 -/

/-- Go error values as the `Auth` loop inspects them: either a
`fallbackError` wrapping an inner error, or an opaque error. -/
inductive GoError where
  | fallbackError (err : GoError)
  | errorMsg (msg : Str)
deriving DecidableEq

/-- The protocol version tag of an endpoint (`APIVersion`). -/
inductive APIVersion where
  | v1
  | v2
deriving DecidableEq

/-- The slice of an `APIEndpoint` the `Auth` loop inspects. -/
structure AuthEndpoint where
  url : Str
  version : APIVersion
deriving DecidableEq

/-- The login-function selection of the `Auth` loop
(`src/registry/service.go` lines 135-138): `loginV1` for a V1 endpoint,
`loginV2` otherwise. -/
def loginFor (lv1 lv2 : AuthEndpoint → Str × Str × Option GoError)
    (ep : AuthEndpoint) : Str × Str × Option GoError :=
  if ep.version = .v1 then lv1 ep else lv2 ep

/-- The endpoint iteration of `Auth` (`src/registry/service.go`
lines 134-153), with the accumulator `errPrev` playing the named return
`err` that survives the loop: success returns immediately, a
`fallbackError` is unwrapped and iteration continues, any other error
aborts, and exhaustion returns the surviving error. -/
def authLoop (lv1 lv2 : AuthEndpoint → Str × Str × Option GoError) :
    List AuthEndpoint → Option GoError → Str × Str × Option GoError
  | [], errPrev => ([], [], errPrev)
  | ep :: rest, _ =>
    match (loginFor lv1 lv2 ep).2.2 with
    | none => ((loginFor lv1 lv2 ep).1, (loginFor lv1 lv2 ep).2.1, none)
    | some (.fallbackError inner) => authLoop lv1 lv2 rest (some inner)
    | some (.errorMsg m) => ([], [], some (.errorMsg m))

/-- The endpoint-iteration part of `Auth` (`src/registry/service.go`
lines 134-153), entered with a `nil` surviving error. -/
def Auth (lv1 lv2 : AuthEndpoint → Str × Str × Option GoError)
    (endpoints : List AuthEndpoint) : Str × Str × Option GoError :=
  authLoop lv1 lv2 endpoints none

/-- Whether a login outcome carries a fallback-class error. -/
def isFallbackOutcome (r : Str × Str × Option GoError) : Bool :=
  match r.2.2 with
  | some (.fallbackError _) => true
  | _ => false

/-- Unwrap one `fallbackError` layer. -/
def unwrapFallback : GoError → GoError
  | .fallbackError e => e
  | .errorMsg m => .errorMsg m

/-- The auth iteration as the spec words it: the first endpoint whose
version-appropriate login is not a fallback-class failure decides the call
(success or abort); if every endpoint only fails with fallback-class
errors, the last endpoint's unwrapped fallback error is surfaced. -/
def authSpec (lv1 lv2 : AuthEndpoint → Str × Str × Option GoError)
    (endpoints : List AuthEndpoint) : Str × Str × Option GoError :=
  match endpoints.find? (fun ep => !isFallbackOutcome (loginFor lv1 lv2 ep)) with
  | some ep =>
    let r := loginFor lv1 lv2 ep
    match r.2.2 with
    | none => (r.1, r.2.1, none)
    | some e => ([], [], some e)
  | none =>
    match endpoints.getLast? with
    | none => ([], [], none)
    | some ep =>
      match (loginFor lv1 lv2 ep).2.2 with
      | some e => ([], [], some (unwrapFallback e))
      | none => ([], [], none)

/-! ### searchTerm — `src/registry/service.go` lines 285-386 -/

/-- The index metadata `searchTerm` consults (`registrytypes.IndexInfo`). -/
structure IndexInfo where
  name : Str
  official : Bool
  secure : Bool
deriving DecidableEq

/-- One provider search result (`registrytypes.SearchResult`). -/
structure SearchResultRaw where
  starCount : Int
  name : Str
  isOfficial : Bool
  isAutomated : Bool
  description : Str
deriving DecidableEq

/-- The provider reply (`registrytypes.SearchResults`): a reported result
count and the result records. -/
structure SearchResults where
  numResults : Int
  results : List SearchResultRaw
deriving DecidableEq

/-- The `localName` computation of `searchTerm` (`src/registry/service.go`
lines 347-357): on the official index, a `library/`-prefixed remote name
is searched under its bare repository name. -/
def searchLocalName (index : IndexInfo) (remoteName : Str) : Str :=
  if index.official = true then
    if strStartsWith remoteName (str "library/") = true then
      match splitFirstSlash remoteName with
      | some p => p.2
      | none => remoteName
    else remoteName
  else remoteName

/-- The per-result transformation of `searchTerm`
(`src/registry/service.go` lines 366-383): build the extended record and
re-attribute the registry name when the provider's result name is itself
index-qualified. -/
def searchResultItem (isn : Str) (index : IndexInfo) (result : SearchResultRaw) :
    SearchResultExt :=
  let item : SearchResultExt :=
    { indexName := index.name
      registryName := index.name
      starCount := result.starCount
      name := result.name
      isOfficial := result.isOfficial
      isAutomated := result.isAutomated
      description := result.description }
  let nn := splitReposSearchTerm false isn result.name
  if nn.1 ≠ [] then { item with registryName := nn.1, name := nn.2 }
  else item

/-- The result-accumulation tail of `searchTerm`
(`src/registry/service.go` lines 344-385): run the provider search on the
local name, return its transport error with the shared slice untouched,
drop provider replies reporting fewer than one result, and otherwise
append the re-attributed results.  `provider` stands for
`r.SearchRepositories`, `isn` for the configured `IndexServerName()`. -/
def searchTermProcess (isn : Str) (index : IndexInfo) (remoteName : Str)
    (provider : Str → Option Str × SearchResults)
    (outs : List SearchResultExt) : Option Str × List SearchResultExt :=
  match (provider (searchLocalName index remoteName)).1 with
  | some e => (some e, outs)
  | none =>
    if (provider (searchLocalName index remoteName)).2.numResults < 1 then
      (none, outs)
    else
      (none, outs ++
        (provider (searchLocalName index remoteName)).2.results.map
          (searchResultItem isn index))

/-! ### Endpoint lookup — `src/registry/service.go` lines 442-520

`lookupV2Endpoints` and `lookupV1Endpoints` are referenced by
`lookupEndpoints` but are not under `src/`; they are modelled from the
spec below.
-/

/-- The slice of an `APIEndpoint` record (`src/registry/service.go`
lines 443-451) the endpoint-ordering claims inspect. -/
structure APIEndpoint where
  mirror : Bool
  url : Str
  version : APIVersion
  official : Bool
  trimHostname : Bool
deriving DecidableEq

/-- The configuration snapshot `lookupEndpoints` reads: the V2-only flag,
the configured mirror URLs, and the hostname's security classification. -/
structure EndpointConfig where
  v2Only : Bool
  mirrors : List Str
  insecure : Bool
deriving DecidableEq

/-- Modelled from the spec: `lookupV2Endpoints` is not under `src/`; per
spec section 4.3 it prepends one V2 mirror endpoint per configured mirror
and appends one V2 endpoint for the hostname itself. -/
def lookupV2Endpoints (mirrors : List Str) (hostname : Str) : List APIEndpoint :=
  (mirrors.map (fun m =>
    { mirror := true, url := m, version := .v2, official := false,
      trimHostname := true })) ++
  [{ mirror := false, url := str "https://" ++ hostname, version := .v2,
     official := false, trimHostname := false }]

/-- Modelled from the spec: `lookupV1Endpoints` is not under `src/`; per
spec section 4.3 it yields legacy V1 endpoints, HTTPS first and plain HTTP
only for a host classified insecure. -/
def lookupV1Endpoints (hostname : Str) (insecure : Bool) : List APIEndpoint :=
  { mirror := false, url := str "https://" ++ hostname, version := .v1,
    official := false, trimHostname := false } ::
  (if insecure then
    [{ mirror := false, url := str "http://" ++ hostname, version := .v1,
       official := false, trimHostname := false }]
  else [])

/-- `lookupEndpoints` of `src/registry/service.go` (lines 503-520): the V2
endpoints, then — unless the service is V2-only — the legacy V1
endpoints. -/
def lookupEndpoints (cfg : EndpointConfig) (hostname : Str) : List APIEndpoint :=
  let endpoints := lookupV2Endpoints cfg.mirrors hostname
  if cfg.v2Only then endpoints
  else endpoints ++ lookupV1Endpoints hostname cfg.insecure

/-- `LookupPullEndpoints` of `src/registry/service.go` (lines 478-483). -/
def LookupPullEndpoints (cfg : EndpointConfig) (hostname : Str) :
    List APIEndpoint :=
  lookupEndpoints cfg hostname

/-- `LookupPushEndpoints` of `src/registry/service.go` (lines 488-501):
the same list with every mirror endpoint removed. -/
def LookupPushEndpoints (cfg : EndpointConfig) (hostname : Str) :
    List APIEndpoint :=
  (lookupEndpoints cfg hostname).filter (fun e => !e.mirror)

/-! ## Helper lemmas -/

theorem strLt_irrefl (s : Str) : strLt s s = false := by
  induction s with
  | nil => rfl
  | cons c cs ih => simp [strLt, ih]

theorem ne_of_strLt {a b : Str} (h : strLt a b = true) : a ≠ b := by
  intro heq
  rw [heq, strLt_irrefl] at h
  exact Bool.false_ne_true h

theorem strStartsWith_append (a b : Str) : strStartsWith (a ++ b) a = true := by
  induction a with
  | nil => cases b <;> rfl
  | cons c cs ih => simp [strStartsWith, ih]

theorem replaceFirst_of_startsWith {s p : Str} (h : strStartsWith s p = true) :
    replaceFirst s p = s.drop p.length := by
  cases s with
  | nil =>
    cases p with
    | nil => rfl
    | cons q qs => simp [strStartsWith] at h
  | cons c cs => simp [replaceFirst, h]

theorem replaceFirst_append (a b : Str) : replaceFirst (a ++ b) a = b := by
  rw [replaceFirst_of_startsWith (strStartsWith_append a b)]
  exact List.drop_left a b

theorem splitFirstSlash_of_noSlash {l : Str} (h : l.contains '/' = false) :
    splitFirstSlash l = none := by
  induction l with
  | nil => rfl
  | cons c cs ih =>
    simp only [List.contains_cons, Bool.or_eq_false_iff] at h
    have hc : ¬ c = '/' := by
      intro heq
      rw [heq] at h
      simp at h
    simp [splitFirstSlash, hc, ih h.2]

theorem splitFirstSlash_append_slash {l : Str} (r : Str)
    (h : l.contains '/' = false) : splitFirstSlash (l ++ '/' :: r) = some (l, r) := by
  induction l with
  | nil => simp [splitFirstSlash]
  | cons c cs ih =>
    simp only [List.contains_cons, Bool.or_eq_false_iff] at h
    have hc : ¬ c = '/' := by
      intro heq
      rw [heq] at h
      simp at h
    simp [splitFirstSlash, hc, ih h.2]

theorem toLowerChar_ne_of_upper {c : Char} (h : 'A' ≤ c ∧ c ≤ 'Z') :
    toLowerChar c ≠ c := by
  unfold toLowerChar
  rw [if_pos h]
  have hz : c.toNat ≤ 90 := h.2
  have hvalid : (c.toNat + 32).isValidChar := by
    left
    omega
  have htn : (Char.ofNat (c.toNat + 32)).toNat = c.toNat + 32 := by
    rw [Char.ofNat, dif_pos hvalid]
    simp [Char.ofNatAux, Char.toNat, UInt32.toNat, BitVec.toNat_ofNatLt]
  intro heq
  rw [heq] at htn
  omega

theorem map_fix_of_map_eq_self {f : Char → Char} {l : Str} (h : l.map f = l) :
    ∀ c ∈ l, f c = c := by
  induction l with
  | nil => intro c hc; simp at hc
  | cons a as ih =>
    rw [List.map_cons, List.cons.injEq] at h
    intro c hc
    rcases List.mem_cons.mp hc with hca | hcas
    · rw [hca]; exact h.1
    · exact ih h.2 c hcas

theorem toLowerStr_ne_of_upper_mem {l : Str} {c : Char} (hc : c ∈ l)
    (hu : isUpperChar c = true) : toLowerStr l ≠ l := by
  intro heq
  have hfix : toLowerChar c = c := map_fix_of_map_eq_self heq c hc
  exact toLowerChar_ne_of_upper (of_decide_eq_true hu) hfix

theorem takeUntilColon_append {a : Str} (b : Str) (h : a.contains ':' = false) :
    takeUntilColon (a ++ b) = a ++ takeUntilColon b := by
  induction a with
  | nil => rfl
  | cons c cs ih =>
    simp only [List.contains_cons, Bool.or_eq_false_iff] at h
    have hc : ¬ c = ':' := by
      intro heq
      rw [heq] at h
      simp at h
    simp [takeUntilColon, hc, ih h.2]

theorem libraryLoop_cases (regs : List Str) (domain remainder : Str) :
    libraryLoop regs domain remainder = remainder ∨
      libraryLoop regs domain remainder = str "library/" ++ remainder := by
  induction regs with
  | nil => exact Or.inl rfl
  | cons r rs ih =>
    unfold libraryLoop
    by_cases h : (domain = r ∨ domain = []) ∧ remainder.contains '/' = false
    · rw [if_pos h]
      exact Or.inr rfl
    · rw [if_neg h]
      exact ih

theorem lastReceived_eq_getLast {l : List (Option Str)} (h : l ≠ []) :
    ∃ x, l.getLast? = some x ∧ lastReceived l = x := by
  induction l with
  | nil => exact absurd rfl h
  | cons a as ih =>
    cases as with
    | nil => exact ⟨a, rfl, rfl⟩
    | cons b bs =>
      obtain ⟨x, hx1, hx2⟩ := ih (by simp)
      refine ⟨x, ?_, ?_⟩
      · rw [List.getLast?_cons_cons]
        exact hx1
      · simpa [lastReceived] using hx2

/-! ## Claim theorems -/

/-- The first example result of the spec's ranking test: index `"a"` with
five stars. -/
def searchExampleA : SearchResultExt :=
  { indexName := str "a", registryName := str "r", starCount := 5,
    name := str "x", isOfficial := false, isAutomated := false,
    description := [] }

/-- The second example result of the spec's ranking test: index `"b"` with
one star. -/
def searchExampleB : SearchResultExt :=
  { indexName := str "b", registryName := str "r", starCount := 1,
    name := str "x", isOfficial := false, isAutomated := false,
    description := [] }

/-- Claim C1: the search ranking comparator orders results
lexicographically by (indexName asc, starCount desc, registryName asc,
name asc, description asc) when `noIndex` is false (`withIndex = !false`),
and by (registryName asc, starCount desc, name asc, description asc) with
the index name absent from the key when `noIndex` is true
(`withIndex = !true`); in particular the index-"a"/5-star result sorts
before the index-"b"/1-star result under `noIndex = false`. -/
theorem search_cmp_lexicographic (fst snd : SearchResultExt) :
    (getSearchResultsCmpFunc (!false) fst snd = true ↔ specLessWithIndex fst snd) ∧
    (getSearchResultsCmpFunc (!true) fst snd = true ↔ specLessNoIndex fst snd) ∧
    getSearchResultsCmpFunc (!false) searchExampleA searchExampleB = true ∧
    getSearchResultsCmpFunc (!false) searchExampleB searchExampleA = false := by
  refine ⟨?_, ?_, by decide, by decide⟩
  · by_cases hI : fst.indexName = snd.indexName
    · by_cases hS : fst.starCount = snd.starCount
      · by_cases hR : fst.registryName = snd.registryName
        · by_cases hN : fst.name = snd.name
          · simp [getSearchResultsCmpFunc, specLessWithIndex, hI, hS, hR, hN,
              strLt_irrefl]
          · simp [getSearchResultsCmpFunc, specLessWithIndex, hI, hS, hR, hN,
              strLt_irrefl]
        · simp [getSearchResultsCmpFunc, specLessWithIndex, hI, hS, hR,
            strLt_irrefl]
      · simp [getSearchResultsCmpFunc, specLessWithIndex, hI, hS, strLt_irrefl]
    · simp [getSearchResultsCmpFunc, specLessWithIndex, hI]
  · by_cases hR : fst.registryName = snd.registryName
    · by_cases hS : fst.starCount = snd.starCount
      · by_cases hN : fst.name = snd.name
        · simp [getSearchResultsCmpFunc, specLessNoIndex, hR, hS, hN,
            strLt_irrefl]
        · simp [getSearchResultsCmpFunc, specLessNoIndex, hR, hS, hN,
            strLt_irrefl]
      · simp [getSearchResultsCmpFunc, specLessNoIndex, hR, hS, strLt_irrefl]
    · simp [getSearchResultsCmpFunc, specLessNoIndex, hR]

theorem dedupGo_head (qr : List Str) :
    ∀ (l : List SearchResultExt) (prev : SearchResultExt),
      ∃ x xs, dedupGo qr prev l = x :: xs ∧
        x.registryName = prev.registryName ∧ x.name = prev.name := by
  intro l
  induction l with
  | nil => exact fun prev => ⟨prev, [], rfl, rfl, rfl⟩
  | cons curr rest ih =>
    intro prev
    unfold dedupGo
    by_cases h : prev.registryName = curr.registryName ∧ prev.name = curr.name
    · rw [if_pos h]
      by_cases h2 : registryPriority qr prev.indexName > registryPriority qr curr.indexName ∨
          (registryPriority qr prev.indexName = registryPriority qr curr.indexName ∧
            prev.starCount < curr.starCount)
      · simp only [if_pos h2]
        obtain ⟨x, xs, hx, hr, hn⟩ := ih curr
        exact ⟨x, xs, hx, hr.trans h.1.symm, hn.trans h.2.symm⟩
      · simp only [if_neg h2]
        exact ih prev
    · rw [if_neg h]
      exact ⟨prev, dedupGo qr curr rest, rfl, rfl, rfl⟩

theorem dedupGo_chain (qr : List Str) :
    ∀ (l : List SearchResultExt) (prev : SearchResultExt),
      List.Chain'
        (fun x y => ¬ (x.registryName = y.registryName ∧ x.name = y.name))
        (dedupGo qr prev l) := by
  intro l
  induction l with
  | nil => exact fun prev => List.chain'_singleton prev
  | cons curr rest ih =>
    intro prev
    unfold dedupGo
    by_cases h : prev.registryName = curr.registryName ∧ prev.name = curr.name
    · rw [if_pos h]
      by_cases h2 : registryPriority qr prev.indexName > registryPriority qr curr.indexName ∨
          (registryPriority qr prev.indexName = registryPriority qr curr.indexName ∧
            prev.starCount < curr.starCount)
      · simp only [if_pos h2]
        exact ih curr
      · simp only [if_neg h2]
        exact ih prev
    · rw [if_neg h]
      rw [List.chain'_cons']
      refine ⟨?_, ih curr⟩
      intro y hy
      obtain ⟨x, xs, hx, hr, hn⟩ := dedupGo_head qr rest curr
      rw [hx] at hy
      simp only [List.head?_cons, Option.mem_def, Option.some.injEq] at hy
      rw [hy] at hr hn
      intro hcon
      exact h ⟨hcon.1.trans hr, hcon.2.trans hn⟩

/-- The spec's dedup example entry from index `"p0"` with three stars. -/
def dedupExampleP0 : SearchResultExt :=
  { indexName := str "p0", registryName := str "r", starCount := 3,
    name := str "x", isOfficial := false, isAutomated := false,
    description := [] }

/-- The spec's dedup example entry from index `"p1"` with nine stars. -/
def dedupExampleP1 : SearchResultExt :=
  { indexName := str "p1", registryName := str "r", starCount := 9,
    name := str "x", isOfficial := false, isAutomated := false,
    description := [] }

/-- Claim C2: deduplication runs only when `noIndex` is set; it collapses
colliding `(registryName, name)` pairs keeping the entry whose index comes
earlier in the configured query-registry list, breaking equal positions by
higher star count; the result never retains two adjacent entries with the
same `(registryName, name)`; and on the spec's example the `p0` entry
survives against the nine-star `p1` entry regardless of scan order. -/
theorem remove_search_duplicates_priority (qr : List Str) (a b : SearchResultExt) :
    ((a.registryName = b.registryName ∧ a.name = b.name) →
      removeSearchDuplicates qr [a, b] =
        [if registryPriority qr a.indexName < registryPriority qr b.indexName ∨
            (registryPriority qr a.indexName = registryPriority qr b.indexName ∧
              b.starCount ≤ a.starCount)
         then a else b]) ∧
    (∀ data, List.Chain'
      (fun x y => ¬ (x.registryName = y.registryName ∧ x.name = y.name))
      (removeSearchDuplicates qr data)) ∧
    (∀ (sortImpl : List SearchResultExt → List SearchResultExt) rs,
      searchPostProcess sortImpl qr false rs = sortImpl rs) ∧
    removeSearchDuplicates (str "p0" :: [str "p1"])
        (dedupExampleP0 :: [dedupExampleP1]) = [dedupExampleP0] ∧
    removeSearchDuplicates (str "p0" :: [str "p1"])
        (dedupExampleP1 :: [dedupExampleP0]) = [dedupExampleP0] := by
  refine ⟨?_, ?_, fun sortImpl rs => rfl, by decide, by decide⟩
  · intro h
    unfold removeSearchDuplicates
    unfold dedupGo
    rw [if_pos h]
    simp only [dedupGo]
    split_ifs with h1 h2 h3
    · exfalso; omega
    · rfl
    · rfl
    · exfalso; omega
  · intro data
    cases data with
    | nil => exact List.chain'_nil
    | cons d ds => exact dedupGo_chain qr ds d

theorem authLoop_eq (lv1 lv2 : AuthEndpoint → Str × Str × Option GoError) :
    ∀ (eps : List AuthEndpoint) (acc : Option GoError),
      authLoop lv1 lv2 eps acc =
        match eps.find? (fun ep => !isFallbackOutcome (loginFor lv1 lv2 ep)) with
        | some ep =>
          match (loginFor lv1 lv2 ep).2.2 with
          | none => ((loginFor lv1 lv2 ep).1, (loginFor lv1 lv2 ep).2.1, none)
          | some e => ([], [], some e)
        | none =>
          match eps.getLast? with
          | none => ([], [], acc)
          | some ep =>
            match (loginFor lv1 lv2 ep).2.2 with
            | some e => ([], [], some (unwrapFallback e))
            | none => ([], [], none) := by
  intro eps
  induction eps with
  | nil => intro acc; rfl
  | cons ep rest ih =>
    intro acc
    rcases hr : (loginFor lv1 lv2 ep).2.2 with _ | e
    · have hfb : isFallbackOutcome (loginFor lv1 lv2 ep) = false := by
        unfold isFallbackOutcome
        rw [hr]
      rw [List.find?_cons_of_pos _ (by rw [hfb]; rfl)]
      unfold authLoop
      rw [hr]
      simp only [hr]
    · cases e with
      | fallbackError inner =>
        have hfb : isFallbackOutcome (loginFor lv1 lv2 ep) = true := by
          unfold isFallbackOutcome
          rw [hr]
        have hstep : authLoop lv1 lv2 (ep :: rest) acc =
            authLoop lv1 lv2 rest (some inner) := by
          show (match (loginFor lv1 lv2 ep).2.2 with
            | none => ((loginFor lv1 lv2 ep).1, (loginFor lv1 lv2 ep).2.1, none)
            | some (.fallbackError inner) => authLoop lv1 lv2 rest (some inner)
            | some (.errorMsg m) => ([], [], some (.errorMsg m))) =
            authLoop lv1 lv2 rest (some inner)
          rw [hr]
        rw [hstep, ih (some inner),
          List.find?_cons_of_neg _ (by rw [hfb]; simp)]
        cases hfind : rest.find? (fun e => !isFallbackOutcome (loginFor lv1 lv2 e)) with
        | some ep' => rfl
        | none =>
          cases rest with
          | nil =>
            simp only [List.getLast?_nil, List.getLast?_singleton]
            rw [hr]
            rfl
          | cons b bs =>
            rw [List.getLast?_cons_cons]
            rfl
      | errorMsg m =>
        have hfb : isFallbackOutcome (loginFor lv1 lv2 ep) = false := by
          unfold isFallbackOutcome
          rw [hr]
        rw [List.find?_cons_of_pos _ (by rw [hfb]; rfl)]
        unfold authLoop
        rw [hr]
        simp only [hr]

/-- Claim C3: `Auth` iterates the endpoints in order with the
version-appropriate login (V1 basic login for a V1 endpoint, V2 login
otherwise), stops at the first non-fallback outcome — returning its
success immediately or aborting with its error — and, when every endpoint
fails with a fallback-class error, surfaces the last endpoint's unwrapped
fallback error; equivalently, `Auth` equals the spec-level iteration
`authSpec`. -/
theorem auth_fallback_iteration
    (lv1 lv2 : AuthEndpoint → Str × Str × Option GoError)
    (eps : List AuthEndpoint) (ep : AuthEndpoint) :
    Auth lv1 lv2 eps = authSpec lv1 lv2 eps ∧
    (ep.version = .v1 → (lv1 ep).2.2 = none →
      Auth lv1 lv2 (ep :: eps) = ((lv1 ep).1, (lv1 ep).2.1, none)) ∧
    (ep.version = .v2 → (lv2 ep).2.2 = none →
      Auth lv1 lv2 (ep :: eps) = ((lv2 ep).1, (lv2 ep).2.1, none)) := by
  refine ⟨?_, ?_, ?_⟩
  · unfold Auth authSpec
    rw [authLoop_eq]
  · intro hv hok
    have hsel : loginFor lv1 lv2 ep = lv1 ep := by
      unfold loginFor
      rw [if_pos hv]
    unfold Auth authLoop
    rw [hsel, hok]
  · intro hv hok
    have hsel : loginFor lv1 lv2 ep = lv2 ep := by
      unfold loginFor
      rw [if_neg (by rw [hv]; exact fun h => by simp at h)]
    unfold Auth authLoop
    rw [hsel, hok]

/-- Closed instantiation of claim C3's conditional conjuncts: a concrete
V1 endpoint whose V1 basic login succeeds makes `Auth` return that success
immediately. -/
theorem auth_fallback_iteration_witness :
    Auth (fun _ => (str "ok", str "token", none))
        (fun _ => ([], [], some (.fallbackError (.errorMsg (str "no v2")))))
        ({ url := str "v1.example.com", version := .v1 } :: []) =
      (str "ok", str "token", none) := by
  exact (auth_fallback_iteration
    (fun _ => (str "ok", str "token", none))
    (fun _ => ([], [], some (.fallbackError (.errorMsg (str "no v2")))))
    [] { url := str "v1.example.com", version := .v1 }).2.1 rfl rfl

/-- Claim C4: the top-level control flow of `Search`: a fully-qualified
term issues the single query and propagates its error directly; an
unqualified term with no configured query registries fails with the
no-configured-repository error; otherwise the call succeeds iff at least
one per-registry task succeeded, and surfaces the last received task error
exactly when all tasks failed. -/
theorem search_control_flow (qr : List Str) (term : Str) (qualErr : Option Str)
    (received : List (Option Str)) :
    (isReposSearchTermFullyQualified term = true →
      ((searchControl qr term qualErr received = .ok ↔ qualErr = none) ∧
        ∀ e, qualErr = some e →
          searchControl qr term qualErr received = .fail e)) ∧
    (isReposSearchTermFullyQualified term = false → qr = [] →
      searchControl qr term qualErr received =
        .fail (str "No configured repository to search.")) ∧
    (isReposSearchTermFullyQualified term = false → qr ≠ [] →
      received.length = qr.length →
      ((searchControl qr term qualErr received = .ok ↔ none ∈ received) ∧
        (∀ e, received.getLast? = some (some e) → (∀ x ∈ received, x ≠ none) →
          searchControl qr term qualErr received = .fail e))) := by
  refine ⟨?_, ?_, ?_⟩
  · intro hq
    unfold searchControl
    rw [if_pos hq]
    cases qualErr with
    | none => exact ⟨by simp, fun e he => by simp at he⟩
    | some e =>
      refine ⟨by simp, fun e' he' => ?_⟩
      rw [Option.some.injEq] at he'
      rw [he']
  · intro hq hqr
    unfold searchControl
    rw [if_neg (by rw [hq]; simp), if_pos (by rw [hqr]; simp)]
  · intro hq hqr hlen
    have hne : received ≠ [] := by
      intro h0
      rw [h0] at hlen
      exact hqr (List.eq_nil_of_length_eq_zero hlen.symm)
    have hqr1 : ¬ qr.length < 1 := by
      have := List.length_pos.mpr hqr
      omega
    constructor
    · constructor
      · intro hok
        by_contra hmem
        have hany : received.any (fun e => e.isNone) = false := by
          rw [Bool.eq_false_iff]
          intro hany
          obtain ⟨x, hx, hxn⟩ := List.any_eq_true.mp hany
          rw [Option.isNone_iff_eq_none] at hxn
          rw [hxn] at hx
          exact hmem hx
        obtain ⟨x, hx1, hx2⟩ := lastReceived_eq_getLast hne
        unfold searchControl at hok
        rw [if_neg (by rw [hq]; simp), if_neg hqr1] at hok
        simp only [hany] at hok
        cases x with
        | none =>
          exact hmem (List.mem_of_mem_getLast? (by rw [hx1]; rfl))
        | some e =>
          rw [hx2] at hok
          simp at hok
      · intro hmem
        have hany : received.any (fun e => e.isNone) = true :=
          List.any_eq_true.mpr ⟨none, hmem, rfl⟩
        unfold searchControl
        rw [if_neg (by rw [hq]; simp), if_neg hqr1]
        simp only [hany]
        simp
    · intro e hlast hall
      have hany : received.any (fun e => e.isNone) = false := by
        rw [Bool.eq_false_iff]
        intro hany
        obtain ⟨x, hx, hxn⟩ := List.any_eq_true.mp hany
        rw [Option.isNone_iff_eq_none] at hxn
        exact hall x hx hxn
      obtain ⟨x, hx1, hx2⟩ := lastReceived_eq_getLast hne
      rw [hlast, Option.some.injEq] at hx1
      unfold searchControl
      rw [if_neg (by rw [hq]; simp), if_neg hqr1]
      simp only [hany]
      rw [hx2, ← hx1]
      simp

/-- Closed instantiation of claim C4's fan-out conjunct: one configured
registry whose single task fails makes `Search` surface that last (and
only) received error. -/
theorem search_control_flow_witness :
    searchControl (str "p0" :: []) (str "ubuntu") none
        (some (str "boom") :: []) = .fail (str "boom") := by
  exact ((search_control_flow (str "p0" :: []) (str "ubuntu") none
    (some (str "boom") :: [])).2.2 (by decide) (by decide) (by decide)).2
    (str "boom") (by decide) (by decide)

/-- Claim C10: a per-registry search task that completes without a
transport error but whose provider reply reports fewer than one result
returns a nil error and leaves the shared accumulated result slice
unchanged. -/
theorem search_term_zero_results (isn : Str) (index : IndexInfo)
    (remoteName : Str) (provider : Str → Option Str × SearchResults)
    (outs : List SearchResultExt)
    (herr : (provider (searchLocalName index remoteName)).1 = none)
    (hnum : (provider (searchLocalName index remoteName)).2.numResults < 1) :
    searchTermProcess isn index remoteName provider outs = (none, outs) := by
  unfold searchTermProcess
  rw [herr, if_pos hnum]

/-- Closed instantiation of claim C10: a provider reporting zero results
against the official index leaves a one-element accumulator unchanged and
returns no error. -/
theorem search_term_zero_results_witness :
    searchTermProcess (str "p0")
        { name := str "p0", official := true, secure := true }
        (str "library/ubuntu")
        (fun _ => (none, { numResults := 0, results := [] }))
        (dedupExampleP0 :: []) = (none, dedupExampleP0 :: []) := by
  exact search_term_zero_results (str "p0")
    { name := str "p0", official := true, secure := true }
    (str "library/ubuntu")
    (fun _ => (none, { numResults := 0, results := [] }))
    (dedupExampleP0 :: []) rfl (by decide)

/-- Closed instantiation of claim C2's collision rule: scanning the
nine-star `p1` entry first, the colliding three-star `p0` entry still wins
on configuration priority. -/
theorem remove_search_duplicates_priority_witness :
    removeSearchDuplicates (str "p0" :: [str "p1"])
        (dedupExampleP1 :: [dedupExampleP0]) = [dedupExampleP0] := by
  have h := (remove_search_duplicates_priority (str "p0" :: [str "p1"])
    dedupExampleP1 dedupExampleP0).1 (by decide)
  rw [h]
  decide

theorem lookupV2Endpoints_version (mirrors : List Str) (hostname : Str) :
    ∀ e ∈ lookupV2Endpoints mirrors hostname, e.version = .v2 := by
  intro e he
  unfold lookupV2Endpoints at he
  rcases List.mem_append.mp he with hm | hs
  · obtain ⟨m, _, hme⟩ := List.mem_map.mp hm
    rw [← hme]
  · rw [List.mem_singleton.mp hs]

theorem lookupV1Endpoints_version (hostname : Str) (insecure : Bool) :
    ∀ e ∈ lookupV1Endpoints hostname insecure, e.version = .v1 := by
  intro e he
  unfold lookupV1Endpoints at he
  rcases List.mem_cons.mp he with h1 | h2
  · rw [h1]
  · cases insecure with
    | true => rw [List.mem_singleton.mp h2]
    | false => simp at h2

/-- Claim C6: every push endpoint has `Mirror = false`; in both the pull
and the push lists no V1 endpoint ever precedes a V2 endpoint (all V2
endpoints come first); and a V2-only configuration yields no V1 endpoints
at all. -/
theorem lookup_endpoints_ordering (cfg : EndpointConfig) (hostname : Str) :
    (∀ e ∈ LookupPushEndpoints cfg hostname, e.mirror = false) ∧
    List.Pairwise (fun a b => ¬ (a.version = .v1 ∧ b.version = .v2))
      (LookupPullEndpoints cfg hostname) ∧
    List.Pairwise (fun a b => ¬ (a.version = .v1 ∧ b.version = .v2))
      (LookupPushEndpoints cfg hostname) ∧
    (cfg.v2Only = true →
      (∀ e ∈ LookupPullEndpoints cfg hostname, e.version = .v2) ∧
      (∀ e ∈ LookupPushEndpoints cfg hostname, e.version = .v2)) := by
  have hpull : List.Pairwise (fun a b => ¬ (a.version = .v1 ∧ b.version = .v2))
      (lookupEndpoints cfg hostname) := by
    unfold lookupEndpoints
    by_cases hv : cfg.v2Only
    · rw [if_pos hv]
      refine List.pairwise_of_forall_mem_list ?_
      intro a ha b _
      rw [lookupV2Endpoints_version cfg.mirrors hostname a ha]
      exact fun hc => by cases hc.1
    · rw [if_neg hv]
      rw [List.pairwise_append]
      refine ⟨?_, ?_, ?_⟩
      · refine List.pairwise_of_forall_mem_list ?_
        intro a ha b _
        rw [lookupV2Endpoints_version cfg.mirrors hostname a ha]
        exact fun hc => by cases hc.1
      · refine List.pairwise_of_forall_mem_list ?_
        intro a _ b hb
        rw [lookupV1Endpoints_version hostname cfg.insecure b hb]
        exact fun hc => by cases hc.2
      · intro a _ b hb
        rw [lookupV1Endpoints_version hostname cfg.insecure b hb]
        exact fun hc => by cases hc.2
  refine ⟨?_, hpull, ?_, ?_⟩
  · intro e he
    unfold LookupPushEndpoints at he
    have := (List.mem_filter.mp he).2
    simpa using this
  · exact List.Pairwise.sublist (List.filter_sublist _) hpull
  · intro hv
    have hall : ∀ e ∈ lookupEndpoints cfg hostname, e.version = .v2 := by
      unfold lookupEndpoints
      rw [if_pos hv]
      exact lookupV2Endpoints_version cfg.mirrors hostname
    refine ⟨hall, ?_⟩
    intro e he
    unfold LookupPushEndpoints at he
    exact hall e (List.mem_of_mem_filter he)

/-- Closed instantiation of claim C6's V2-only conjunct: with one mirror
configured and V2-only set, both lookup lists carry only V2 endpoints and
the push list has no mirrors. -/
theorem lookup_endpoints_ordering_witness :
    (∀ e ∈ LookupPushEndpoints
        { v2Only := true, mirrors := str "mirror.example.com" :: [],
          insecure := false } (str "reg.example.com"),
      e.mirror = false) ∧
    (∀ e ∈ LookupPullEndpoints
        { v2Only := true, mirrors := str "mirror.example.com" :: [],
          insecure := false } (str "reg.example.com"),
      e.version = .v2) := by
  refine ⟨(lookup_endpoints_ordering _ _).1, ?_⟩
  exact ((lookup_endpoints_ordering
    { v2Only := true, mirrors := str "mirror.example.com" :: [],
      insecure := false } (str "reg.example.com")).2.2.2 rfl).1

theorem substituteReferenceName_name (ref : NamedRef) (n : Str) :
    (SubstituteReferenceName ref n).name = n := by
  unfold SubstituteReferenceName
  split_ifs <;> rfl

theorem isValidHostname_spec {h : Str} (hv : isValidHostname h = true) :
    h ≠ [] ∧ h.contains '/' = false := by
  have := of_decide_eq_true hv
  exact ⟨this.1, this.2.1⟩

/-- Claim C8: `QualifyUnqualifiedReference` fails with the
invalid-hostname error exactly when the hostname fails the validity
predicate; for a valid hostname it prefixes the repository path with the
hostname only when the reference has no index, returns an
already-qualified reference unchanged, and qualifying its own output again
is the identity (idempotence). -/
theorem qualify_unqualified_reference (ref : NamedRef) (h : Str) :
    ((∃ m, QualifyUnqualifiedReference ref h = .error m) ↔
      isValidHostname h = false) ∧
    (isValidHostname h = true → (SplitReposName ref).1 = [] →
      QualifyUnqualifiedReference ref h =
        .ok (SubstituteReferenceName ref
          (h ++ '/' :: (SplitReposName ref).2.name))) ∧
    (isValidHostname h = true → (SplitReposName ref).1 ≠ [] →
      QualifyUnqualifiedReference ref h = .ok ref) ∧
    (∀ r₁, QualifyUnqualifiedReference ref h = .ok r₁ →
      QualifyUnqualifiedReference r₁ h = .ok r₁) := by
  refine ⟨?_, ?_, ?_, ?_⟩
  · cases hv : isValidHostname h with
    | false =>
      refine ⟨fun _ => rfl, fun _ => ?_⟩
      unfold QualifyUnqualifiedReference
      rw [if_pos hv]
      exact ⟨str "Invalid hostname", rfl⟩
    | true =>
      refine ⟨fun hm => ?_, fun hf => by simp at hf⟩
      obtain ⟨m, hm⟩ := hm
      unfold QualifyUnqualifiedReference at hm
      rw [if_neg (by rw [hv]; simp)] at hm
      by_cases hsplit : (SplitReposName ref).1 = []
      · rw [if_pos hsplit] at hm
        cases hm
      · rw [if_neg hsplit] at hm
        cases hm
  · intro hv hsplit
    unfold QualifyUnqualifiedReference
    rw [if_neg (by rw [hv]; simp), if_pos hsplit]
  · intro hv hsplit
    unfold QualifyUnqualifiedReference
    rw [if_neg (by rw [hv]; simp), if_neg hsplit]
  · intro r₁ hok
    cases hv : isValidHostname h with
    | false =>
      unfold QualifyUnqualifiedReference at hok
      rw [if_pos hv] at hok
      cases hok
    | true =>
      obtain ⟨hne, hns⟩ := isValidHostname_spec hv
      unfold QualifyUnqualifiedReference at hok
      rw [if_neg (by rw [hv]; simp)] at hok
      by_cases hsplit : (SplitReposName ref).1 = []
      · rw [if_pos hsplit] at hok
        rw [Except.ok.injEq] at hok
        have hname : r₁.name = h ++ '/' :: (SplitReposName ref).2.name := by
          rw [← hok]
          exact substituteReferenceName_name _ _
        have hsplit1 : SplitReposName r₁ =
            (h, { name := (SplitReposName ref).2.name, tag := none,
                  digest := none }) := by
          generalize hX : (SplitReposName ref).2.name = X at hname
          show SplitReposName r₁ = (h, { name := X, tag := none, digest := none })
          unfold SplitReposName SplitHostname
          rw [hname, splitFirstSlash_append_slash _ hns]
          rw [if_neg (by rw [hv]; simp)]
        unfold QualifyUnqualifiedReference
        rw [if_neg (by rw [hv]; simp), hsplit1]
        rw [if_neg (by exact hne)]
      · rw [if_neg hsplit] at hok
        rw [Except.ok.injEq] at hok
        rw [← hok]
        unfold QualifyUnqualifiedReference
        rw [if_neg (by rw [hv]; simp), if_neg hsplit]

/-- Closed instantiation of claim C8: qualifying the bare reference
`busybox` with `my.registry.example` prefixes it once, and qualifying the
result again leaves it unchanged. -/
theorem qualify_unqualified_reference_witness :
    QualifyUnqualifiedReference
        { name := str "my.registry.example" ++ '/' :: str "busybox",
          tag := none, digest := none }
        (str "my.registry.example") =
      .ok { name := str "my.registry.example" ++ '/' :: str "busybox",
            tag := none, digest := none } := by
  have h1 := (qualify_unqualified_reference
    { name := str "busybox", tag := none, digest := none }
    (str "my.registry.example")).2.1 (by decide) (by decide)
  have h2 : SubstituteReferenceName
      { name := str "busybox", tag := none, digest := none }
      (str "my.registry.example" ++ '/' ::
        (SplitReposName
          { name := str "busybox", tag := none, digest := none }).2.name) =
      { name := str "my.registry.example" ++ '/' :: str "busybox",
        tag := none, digest := none } := by decide
  rw [h2] at h1
  exact (qualify_unqualified_reference
    { name := str "busybox", tag := none, digest := none }
    (str "my.registry.example")).2.2.2
    { name := str "my.registry.example" ++ '/' :: str "busybox",
      tag := none, digest := none } h1

theorem trimLoop_not_mem (domain s : Str) :
    ∀ regs : List Str, domain ∉ regs → trimLoop regs domain s = s := by
  intro regs
  induction regs with
  | nil => intro _; rfl
  | cons r rs ih =>
    intro hmem
    unfold trimLoop
    rw [if_neg (fun h => hmem (by rw [h]; exact List.mem_cons_self r rs))]
    exact ih (fun h => hmem (List.mem_cons_of_mem r h))

theorem trimLoop_mem (domain s : Str) :
    ∀ regs : List Str, domain ∈ regs →
      trimLoop regs domain s =
        (if containsSub s (domain ++ str "/library") = true
         then replaceFirst s (domain ++ str "/library/")
         else replaceFirst s (domain ++ str "/")) := by
  intro regs
  induction regs with
  | nil => intro h; simp at h
  | cons r rs ih =>
    intro hmem
    unfold trimLoop
    by_cases hd : domain = r
    · rw [if_pos hd, ← hd]
    · rw [if_neg hd]
      exact ih (by rcases List.mem_cons.mp hmem with h | h; exact absurd h hd; exact h)

theorem containsSub_of_startsWith {s sub : Str} (h : strStartsWith s sub = true) :
    containsSub s sub = true := by
  cases s with
  | nil => exact h
  | cons c cs =>
    unfold containsSub
    rw [h]
    rfl

theorem splitDockerDomainBase_append (r X : Str) (hns : r.contains '/' = false)
    (hdl : (r.contains '.' || r.contains ':') = true ∨ r = str "localhost") :
    splitDockerDomainBase (r ++ '/' :: X) = (r, X) := by
  unfold splitDockerDomainBase
  rw [splitFirstSlash_append_slash X hns]
  show (if ¬ (r.contains '.' || r.contains ':') = true ∧ r ≠ str "localhost"
        then (([] : Str), r ++ '/' :: X) else (r, X)) = (r, X)
  rcases hdl with h | h
  · exact if_neg (fun hc => hc.1 h)
  · exact if_neg (fun hc => hc.2 h)

/-- Counterexample to claim C5 as stated: with default registries
`["docker.io"]` and input `"docker.io/libraryfoo"`, the domain is the
default registry `"docker.io"` and the repository path `"libraryfoo"` does
not begin with `"library/"`, so the claim prescribes stripping the leading
`"docker.io/"` (yielding `"libraryfoo"`); the code instead matches the
slash-less substring `"docker.io/library"`, attempts to delete the absent
`"docker.io/library/"`, and returns the input unchanged. -/
theorem trim_default_registry_counterexample :
    (splitDockerDomain (str "docker.io" :: []) (str "docker.io/libraryfoo")).1 =
      str "docker.io" ∧
    strStartsWith (str "libraryfoo") (str "library/") = false ∧
    trimDefaultRegistry (str "docker.io" :: []) (str "docker.io/libraryfoo") =
      str "docker.io/libraryfoo" ∧
    trimDefaultRegistry (str "docker.io" :: []) (str "docker.io/libraryfoo") ≠
      str "libraryfoo" := by
  decide

/-- Claim C5 as amended: for a string whose domain is a configured default
registry `r`, `trimDefaultRegistry` deletes the first occurrence of
`"r/library/"` when the string merely contains the substring
`"r/library"` (without the trailing slash; the deletion is a no-op when no
`"r/library/"` occurrence exists), and otherwise deletes the leading
`"r/"`; in particular a path beginning with `"library/"` loses the whole
`"r/library/"` prefix, a path with no `"r/library"` substring loses only
`"r/"`, and a string whose domain is no default registry is returned
unchanged. -/
theorem trim_default_registry_amended (regs : List Str) (s r rest : Str) :
    ((splitDockerDomain regs s).1 ∉ regs → trimDefaultRegistry regs s = s) ∧
    ((splitDockerDomain regs s).1 = r → r ∈ regs →
      trimDefaultRegistry regs s =
        (if containsSub s (r ++ str "/library") = true
         then replaceFirst s (r ++ str "/library/")
         else replaceFirst s (r ++ str "/"))) ∧
    (r ∈ regs → r.contains '/' = false →
      ((r.contains '.' || r.contains ':') = true ∨ r = str "localhost") →
      trimDefaultRegistry regs (r ++ '/' :: (str "library/" ++ rest)) = rest) ∧
    (r ∈ regs → r.contains '/' = false →
      ((r.contains '.' || r.contains ':') = true ∨ r = str "localhost") →
      containsSub (r ++ '/' :: rest) (r ++ str "/library") = false →
      trimDefaultRegistry regs (r ++ '/' :: rest) = rest) := by
  refine ⟨?_, ?_, ?_, ?_⟩
  · intro hmem
    exact trimLoop_not_mem _ s regs hmem
  · intro hdom hmem
    unfold trimDefaultRegistry
    rw [hdom]
    exact trimLoop_mem r s regs hmem
  · intro hmem hns hdl
    have hdom : (splitDockerDomain regs (r ++ '/' :: (str "library/" ++ rest))).1 = r := by
      unfold splitDockerDomain
      rw [splitDockerDomainBase_append r _ hns hdl]
    unfold trimDefaultRegistry
    rw [hdom, trimLoop_mem r _ regs hmem]
    have hassoc : r ++ '/' :: (str "library/" ++ rest) =
        (r ++ str "/library/") ++ rest := by
      rw [List.append_assoc]
      rfl
    have hassoc2 : r ++ '/' :: (str "library/" ++ rest) =
        (r ++ str "/library") ++ ('/' :: rest) := by
      rw [List.append_assoc]
      rfl
    have hsw : strStartsWith ((r ++ str "/library") ++ ('/' :: rest))
        (r ++ str "/library") = true := strStartsWith_append _ _
    have hcontains : containsSub (r ++ '/' :: (str "library/" ++ rest))
        (r ++ str "/library") = true := by
      rw [hassoc2]
      exact containsSub_of_startsWith hsw
    rw [if_pos hcontains, hassoc, replaceFirst_append]
  · intro hmem hns hdl hnosub
    have hdom : (splitDockerDomain regs (r ++ '/' :: rest)).1 = r := by
      unfold splitDockerDomain
      rw [splitDockerDomainBase_append r _ hns hdl]
    unfold trimDefaultRegistry
    rw [hdom, trimLoop_mem r _ regs hmem]
    rw [if_neg (by rw [hnosub]; simp)]
    have hassoc : r ++ '/' :: rest = (r ++ str "/") ++ rest := by
      rw [List.append_assoc]
      rfl
    rw [hassoc, replaceFirst_append]

/-- Closed instantiation of claim C5's amended positive cases: the
official form `docker.io/library/ubuntu` trims to `ubuntu`, and the
non-official form `docker.io/myrepo` trims to `myrepo`. -/
theorem trim_default_registry_amended_witness :
    trimDefaultRegistry (str "docker.io" :: [])
        (str "docker.io" ++ '/' :: (str "library/" ++ str "ubuntu")) =
      str "ubuntu" ∧
    trimDefaultRegistry (str "docker.io" :: [])
        (str "docker.io" ++ '/' :: str "myrepo") = str "myrepo" := by
  constructor
  · exact (trim_default_registry_amended (str "docker.io" :: [])
      (str "docker.io") (str "docker.io") (str "ubuntu")).2.2.1
      (by decide) (by decide) (by decide)
  · exact (trim_default_registry_amended (str "docker.io" :: [])
      (str "docker.io") (str "docker.io") (str "myrepo")).2.2.2
      (by decide) (by decide) (by decide) (by decide)

theorem splitDockerDomainBase_noSlash {n : Str} (h : n.contains '/' = false) :
    splitDockerDomainBase n = ([], n) := by
  unfold splitDockerDomainBase
  rw [splitFirstSlash_of_noSlash h]

theorem libraryLoop_empty_domain {regs : List Str} (rem : Str)
    (hregs : regs ≠ []) (hrem : rem.contains '/' = false) :
    libraryLoop regs [] rem = str "library/" ++ rem := by
  cases regs with
  | nil => exact absurd rfl hregs
  | cons r rs =>
    unfold libraryLoop
    rw [if_pos ⟨Or.inr rfl, hrem⟩]

theorem libraryLoop_mem {domain : Str} (rem : Str) (hne : domain ≠ [])
    (hrem : rem.contains '/' = false) :
    ∀ regs : List Str, domain ∈ regs →
      libraryLoop regs domain rem = str "library/" ++ rem := by
  intro regs
  induction regs with
  | nil => intro h; simp at h
  | cons r rs ih =>
    intro hmem
    unfold libraryLoop
    by_cases hd : domain = r
    · rw [if_pos ⟨Or.inl hd, hrem⟩]
    · rw [if_neg (fun hc => by rcases hc.1 with h | h; exact hd h; exact hne h)]
      exact ih (by rcases List.mem_cons.mp hmem with h | h; exact absurd h hd; exact h)

theorem libraryLoop_slash {rem : Str} (hrem : rem.contains '/' = true) :
    ∀ (regs : List Str) (domain : Str), libraryLoop regs domain rem = rem := by
  intro regs
  induction regs with
  | nil => intro _; rfl
  | cons r rs ih =>
    intro domain
    unfold libraryLoop
    rw [if_neg (fun hc => by rw [hrem] at hc; exact absurd hc.2 (by decide))]
    exact ih domain

theorem libraryLoop_not_mem {domain : Str} (rem : Str) (hne : domain ≠ []) :
    ∀ regs : List Str, domain ∉ regs → libraryLoop regs domain rem = rem := by
  intro regs
  induction regs with
  | nil => intro _; rfl
  | cons r rs ih =>
    intro hmem
    unfold libraryLoop
    rw [if_neg (fun hc => by
      rcases hc.1 with h | h
      · exact hmem (by rw [h]; exact List.mem_cons_self r rs)
      · exact hne h)]
    exact ih (fun h => hmem (List.mem_cons_of_mem r h))

theorem parse_ok_shape {regs : List Str} {g : Str → GrammarOutcome} {s out : Str}
    (h : ParseNormalizedNamed regs g s = .ok out) :
    out = (if (splitDockerDomain regs s).1 = [] then (splitDockerDomain regs s).2
           else (splitDockerDomain regs s).1 ++ '/' :: (splitDockerDomain regs s).2) := by
  unfold ParseNormalizedNamed at h
  by_cases hhex : matchesAnchoredIdentifier s = true
  · rw [if_pos hhex] at h
    cases h
  · rw [if_neg hhex] at h
    by_cases hlow : toLowerStr (takeUntilColon (splitDockerDomain regs s).2) ≠
        takeUntilColon (splitDockerDomain regs s).2
    · rw [if_pos hlow] at h
      cases h
    · rw [if_neg hlow] at h
      have h2 : (match g (if (splitDockerDomain regs s).1 = []
            then (splitDockerDomain regs s).2
            else (splitDockerDomain regs s).1 ++ '/' :: (splitDockerDomain regs s).2) with
          | GrammarOutcome.parseErr m => Except.error m
          | GrammarOutcome.anonymous => Except.error (str "reference has no name")
          | GrammarOutcome.named =>
            Except.ok (if (splitDockerDomain regs s).1 = []
              then (splitDockerDomain regs s).2
              else (splitDockerDomain regs s).1 ++ '/' ::
                (splitDockerDomain regs s).2)) = Except.ok out := h
      cases hg : g (if (splitDockerDomain regs s).1 = []
          then (splitDockerDomain regs s).2
          else (splitDockerDomain regs s).1 ++ '/' :: (splitDockerDomain regs s).2) with
      | parseErr m =>
        rw [hg] at h2
        cases h2
      | anonymous =>
        rw [hg] at h2
        cases h2
      | named =>
        rw [hg] at h2
        rw [Except.ok.injEq] at h2
        exact h2.symm

/-- Claim C7: a single-segment name parsed with an empty domain (some
default registry being configured), or with a domain equal to a configured
default registry, is rewritten under the reserved `library/` namespace —
`"ubuntu"` parses to `"library/ubuntu"` — while a remainder containing a
`'/'` or a domain that is no default registry is left unrewritten. -/
theorem parse_library_namespace (regs : List Str) (g : Str → GrammarOutcome)
    (n r : Str) :
    (regs ≠ [] → n.contains '/' = false →
      splitDockerDomain regs n = ([], str "library/" ++ n) ∧
      ∀ out, ParseNormalizedNamed regs g n = .ok out →
        out = str "library/" ++ n) ∧
    (r ∈ regs → r.contains '/' = false →
      ((r.contains '.' || r.contains ':') = true ∨ r = str "localhost") →
      n.contains '/' = false →
      splitDockerDomain regs (r ++ '/' :: n) = (r, str "library/" ++ n) ∧
      ∀ out, ParseNormalizedNamed regs g (r ++ '/' :: n) = .ok out →
        out = r ++ '/' :: (str "library/" ++ n)) ∧
    (n.contains '/' = true → r.contains '/' = false →
      ((r.contains '.' || r.contains ':') = true ∨ r = str "localhost") →
      splitDockerDomain regs (r ++ '/' :: n) = (r, n)) ∧
    (r ∉ regs → r ≠ [] → r.contains '/' = false →
      ((r.contains '.' || r.contains ':') = true ∨ r = str "localhost") →
      n.contains '/' = false →
      splitDockerDomain regs (r ++ '/' :: n) = (r, n)) := by
  refine ⟨?_, ?_, ?_, ?_⟩
  · intro hregs hn
    have hsplit : splitDockerDomain regs n = ([], str "library/" ++ n) := by
      unfold splitDockerDomain
      rw [splitDockerDomainBase_noSlash hn]
      show (([] : Str), libraryLoop regs [] n) = ([], str "library/" ++ n)
      rw [libraryLoop_empty_domain n hregs hn]
    refine ⟨hsplit, fun out hout => ?_⟩
    have := parse_ok_shape hout
    rw [hsplit] at this
    simpa using this
  · intro hmem hns hdl hn
    have hne : r ≠ [] := by
      intro h0
      rcases hdl with h | h
      · rw [h0] at h
        simp at h
      · rw [h0] at h
        cases h
    have hsplit : splitDockerDomain regs (r ++ '/' :: n) = (r, str "library/" ++ n) := by
      unfold splitDockerDomain
      rw [splitDockerDomainBase_append r n hns hdl]
      show (r, libraryLoop regs r n) = (r, str "library/" ++ n)
      rw [libraryLoop_mem n hne hn regs hmem]
    refine ⟨hsplit, fun out hout => ?_⟩
    have := parse_ok_shape hout
    rw [hsplit] at this
    rw [this, if_neg (by exact hne)]
  · intro hn hns hdl
    unfold splitDockerDomain
    rw [splitDockerDomainBase_append r n hns hdl]
    show (r, libraryLoop regs r n) = (r, n)
    rw [libraryLoop_slash hn regs r]
  · intro hmem hne hns hdl hn
    unfold splitDockerDomain
    rw [splitDockerDomainBase_append r n hns hdl]
    show (r, libraryLoop regs r n) = (r, n)
    rw [libraryLoop_not_mem n hne regs hmem]

/-- Closed instantiation of claim C7: with `docker.io` configured and a
grammar accepting the name, `"ubuntu"` parses to `"library/ubuntu"`. -/
theorem parse_library_namespace_witness :
    ParseNormalizedNamed (str "docker.io" :: []) (fun _ => GrammarOutcome.named)
        (str "ubuntu") = .ok (str "library/" ++ str "ubuntu") := by
  have heval : ParseNormalizedNamed (str "docker.io" :: [])
      (fun _ => GrammarOutcome.named) (str "ubuntu") =
      .ok (str "library/ubuntu") := rfl
  have h := ((parse_library_namespace (str "docker.io" :: [])
    (fun _ => GrammarOutcome.named) (str "ubuntu") (str "docker.io")).1
    (by simp) (by decide)).2 (str "library/ubuntu") heval
  rw [heval, h]

theorem splitDockerDomain_eq (regs : List Str) (s : Str) :
    splitDockerDomain regs s =
      ((splitDockerDomainBase s).1,
        libraryLoop regs (splitDockerDomainBase s).1 (splitDockerDomainBase s).2) :=
  rfl

/-- Claim C9: `ParseNormalizedNamed` fails on every bare
64-hex-character input, fails whenever the remote name (the remainder
after domain splitting, up to the first `':'`) contains an upper-case
letter, and never lower-cases: on success the remote name was already
lower-case. -/
theorem parse_case_validation (regs : List Str) (g : Str → GrammarOutcome)
    (s : Str) :
    (matchesAnchoredIdentifier s = true →
      ParseNormalizedNamed regs g s =
        .error (str "invalid repository name, cannot specify 64-byte hexadecimal strings")) ∧
    (∀ c, c ∈ takeUntilColon (splitDockerDomainBase s).2 → isUpperChar c = true →
      ∃ m, ParseNormalizedNamed regs g s = .error m) ∧
    (∀ out, ParseNormalizedNamed regs g s = .ok out →
      toLowerStr (takeUntilColon (splitDockerDomain regs s).2) =
        takeUntilColon (splitDockerDomain regs s).2) := by
  refine ⟨?_, ?_, ?_⟩
  · intro hhex
    unfold ParseNormalizedNamed
    rw [if_pos hhex]
  · intro c hc hu
    by_cases hhex : matchesAnchoredIdentifier s = true
    · refine ⟨str "invalid repository name, cannot specify 64-byte hexadecimal strings", ?_⟩
      unfold ParseNormalizedNamed
      rw [if_pos hhex]
    · have hne : toLowerStr (takeUntilColon (splitDockerDomain regs s).2) ≠
          takeUntilColon (splitDockerDomain regs s).2 := by
        rw [splitDockerDomain_eq]
        rcases libraryLoop_cases regs (splitDockerDomainBase s).1
            (splitDockerDomainBase s).2 with hL | hL
        · rw [hL]
          exact toLowerStr_ne_of_upper_mem hc hu
        · rw [hL, takeUntilColon_append _ (by decide)]
          exact toLowerStr_ne_of_upper_mem
            (List.mem_append_right (str "library/") hc) hu
      refine ⟨str "invalid reference format: repository name must be lowercase", ?_⟩
      unfold ParseNormalizedNamed
      rw [if_neg hhex, if_pos hne]
  · intro out hout
    unfold ParseNormalizedNamed at hout
    by_cases hhex : matchesAnchoredIdentifier s = true
    · rw [if_pos hhex] at hout
      cases hout
    · rw [if_neg hhex] at hout
      by_cases hlow : toLowerStr (takeUntilColon (splitDockerDomain regs s).2) ≠
          takeUntilColon (splitDockerDomain regs s).2
      · rw [if_pos hlow] at hout
        cases hout
      · exact not_ne_iff.mp hlow

/-- Closed instantiation of claim C9: the 64-character hexadecimal string
of `'a'`s is rejected, and `"Foo"` is rejected for its upper-case
letter. -/
theorem parse_case_validation_witness :
    ParseNormalizedNamed [] (fun _ => GrammarOutcome.named)
        (List.replicate 64 'a') =
      .error (str "invalid repository name, cannot specify 64-byte hexadecimal strings") ∧
    ∃ m, ParseNormalizedNamed [] (fun _ => GrammarOutcome.named) (str "Foo") =
      .error m := by
  constructor
  · exact (parse_case_validation [] (fun _ => GrammarOutcome.named)
      (List.replicate 64 'a')).1 (by decide)
  · exact (parse_case_validation [] (fun _ => GrammarOutcome.named)
      (str "Foo")).2.1 'F' (by decide) (by decide)
